import Mathlib

/-!
Verification of the wachturm update-risk pipeline.

This file gives a shallow embedding of the core of the repository:
the apt-based package manager (installed-package parsing, changelog
parsing, the update applicator), the OpenAI risk assessor (prompt
generation and score merging), and the snapshot store (summary
write-once policy and JSON snapshot round trip).  Strings are modelled
as Lean `String`s, but all string operations used by the code are
re-implemented structurally over `String.data` so that every
definition evaluates inside the kernel.  External effects (process
execution, the oracle transport, the filesystem) are modelled as
explicit parameters and returned actions.
-/

/-! ## String primitives (Go `strings` package operations) -/

/-- Go `strings.HasPrefix` on character lists: `listHasPre s pat` is true
when `pat` is a leading segment of `s`. -/
def listHasPre : List Char → List Char → Bool
  | _, [] => true
  | [], _ :: _ => false
  | c :: cs, p :: ps => c == p && listHasPre cs ps

/-- Go `strings.HasPrefix`. -/
def strHasPre (s pat : String) : Bool :=
  listHasPre s.data pat.data

/-- Go `strings.Contains` on character lists: some suffix of `s` starts
with `pat`. -/
def listContainsSub : List Char → List Char → Bool
  | [], pat => listHasPre [] pat
  | c :: t, pat => listHasPre (c :: t) pat || listContainsSub t pat

/-- Go `strings.Contains`. -/
def strContains (s pat : String) : Bool :=
  listContainsSub s.data pat.data

/-- Go `strings.ToLower` (the code only compares against the ASCII
literal "low", so ASCII case folding is the relevant fragment). -/
def strToLower (s : String) : String :=
  String.mk (s.data.map Char.toLower)

/-- Go `strings.Split(s, "\n")`: split on every newline character. -/
def splitLinesAux : List Char → List Char → List String
  | [], acc => [String.mk acc.reverse]
  | c :: cs, acc =>
    if c == '\n' then String.mk acc.reverse :: splitLinesAux cs []
    else splitLinesAux cs (c :: acc)

/-- Go `strings.Split(s, "\n")`. -/
def splitLines (s : String) : List String :=
  splitLinesAux s.data []

/-- Go `strings.Fields`: whitespace-separated maximal runs of
non-whitespace characters. -/
def fieldsAux : List Char → List Char → List String
  | [], [] => []
  | [], acc => [String.mk acc.reverse]
  | c :: cs, acc =>
    if c.isWhitespace then
      match acc with
      | [] => fieldsAux cs []
      | _ :: _ => String.mk acc.reverse :: fieldsAux cs []
    else fieldsAux cs (c :: acc)

/-- Go `strings.Fields`. -/
def fields (s : String) : List String :=
  fieldsAux s.data []

/-- Go `strings.TrimSpace`: drop whitespace from both ends. -/
def strTrimSpace (s : String) : String :=
  String.mk (((s.data.dropWhile Char.isWhitespace).reverse.dropWhile Char.isWhitespace).reverse)

/-- The cutset "., " used by `strings.Trim(word, ".,")`. -/
def isCutChar (c : Char) : Bool := c == '.' || c == ','

/-- Go `strings.Trim(s, ".,")`: drop '.' and ',' from both ends. -/
def strTrimCut (s : String) : String :=
  String.mk (((s.data.dropWhile isCutChar).reverse.dropWhile isCutChar).reverse)

/-- Characters of `s` after the first occurrence of `pat`
(`none` when `pat` does not occur); the tail of Go
`strings.SplitN(s, pat, 2)`. -/
def afterFirstSub : List Char → List Char → Option (List Char)
  | [], pat => if listHasPre [] pat then some [] else none
  | c :: t, pat =>
    if listHasPre (c :: t) pat then some ((c :: t).drop pat.length)
    else afterFirstSub t pat

/-- Characters of `s` before the first occurrence of `pat` (the whole
list when `pat` does not occur); the head of Go
`strings.SplitN(s, pat, 2)` and of `strings.Split(s, pat)`. -/
def upToSub : List Char → List Char → List Char
  | [], _ => []
  | c :: t, pat => if listHasPre (c :: t) pat then [] else c :: upToSub t pat

/-- Index of the first occurrence of character `c`, Go `strings.Index`
restricted to a one-character pattern (`none` for Go's -1). -/
def idxOfChar (c : Char) : List Char → Option Nat
  | [] => none
  | x :: t => if x == c then some 0 else (idxOfChar c t).map (· + 1)

/-! ## Data model (`pkg/packagemanager/packagemanager.go`) -/

/-- ChangelogInfo contains parsed changelog information. -/
structure ChangelogInfo where
  Summary : String
  Urgency : String
  CVEs : List String
  Author : String
  Date : String
  Raw : String
deriving DecidableEq

/-- UpgradeInfo contains information about available upgrades for a
package.  In Go the `Changelog` field is a nullable pointer, modelled
here by `Option`. -/
structure UpgradeInfo where
  NewVersion : String
  HasUpgrade : Bool
  Changelog : Option ChangelogInfo
  RiskLevel : String
  RiskReason : String
deriving DecidableEq

/-- Info represents information about a system package.  The Go
`Upgrade` field is a nullable pointer `*UpgradeInfo`; this value-level
model inlines the pointee as an `Option` (a separate heap-based model
`InfoRef` below captures the aliasing of the pointer). -/
structure Info where
  Name : String
  Version : String
  Architecture : String
  Description : String
  Upgrade : Option UpgradeInfo
deriving DecidableEq

/-! ## Update Applicator (`Manager.UpdatePackages`) -/

/-- The externally visible outcome of `Manager.UpdatePackages`: either
no `apt-get` invocation at all, or exactly one batch upgrade naming the
selected packages. -/
inductive UpdateAction where
  | noCall : UpdateAction
  | aptGetUpgrade : List String → UpdateAction
deriving DecidableEq

/-- The selection loop of `Manager.UpdatePackages`: collect the names of
packages whose `RiskLevel`, lower-cased, equals "low".  The Go code
reads `pkg.Upgrade.RiskLevel` without a nil check, so a package whose
`Upgrade` is nil makes the loop panic; the panic is modelled by
returning `none`. -/
def selectSafe : List Info → Option (List String)
  | [] => some []
  | p :: rest =>
    match p.Upgrade with
    | none => none
    | some u =>
      match selectSafe rest with
      | none => none
      | some safe =>
        some (if strToLower u.RiskLevel == "low" then p.Name :: safe else safe)

/-- `Manager.UpdatePackages`: select the low-risk packages; when none
are selected perform no external call and succeed, otherwise invoke one
`apt-get install --only-upgrade -y` naming the selection.  `none`
models the nil-pointer panic of the selection loop. -/
def UpdatePackages (packages : List Info) : Option UpdateAction :=
  match selectSafe packages with
  | none => none
  | some safe =>
    if safe.isEmpty then some UpdateAction.noCall
    else some (UpdateAction.aptGetUpgrade safe)

/-- Specification-side description of the selection: the names of
exactly those packages whose `risk_level`, case-folded, equals "low". -/
def lowRiskNames (packages : List Info) : List String :=
  (packages.filter fun p =>
    match p.Upgrade with
    | some u => strToLower u.RiskLevel == "low"
    | none => false).map Info.Name

/-! ## Risk Merge Engine (`pkg/riskassessor/openai.go`) -/

/-- CompatibilityScore represents the compatibility assessment for a
package update: one `{name, risk_level, risk_reason}` triple of the
oracle's structured response. -/
structure CompatibilityScore where
  Name : String
  RiskLevel : String
  RiskReason : String
deriving DecidableEq

/-- The inner loop of the merge in `ScorePackageRisks`: the first
response entry whose name equals `name` by exact (case-sensitive)
string comparison, mirroring `if r.Name == pkg.Name { ...; break }`. -/
def findScore (name : String) : List CompatibilityScore → Option CompatibilityScore
  | [] => none
  | r :: rest => if r.Name == name then some r else findScore name rest

/-- One iteration of the merge loop of `ScorePackageRisks` on a single
package: packages without an upgrade record are skipped, otherwise the
first matching response entry's risk fields are copied onto the
package's upgrade record. -/
def applyScore (results : List CompatibilityScore) (p : Info) : Info :=
  match p.Upgrade with
  | none => p
  | some u =>
    match findScore p.Name results with
    | none => p
    | some r =>
      { p with Upgrade := some { u with RiskLevel := r.RiskLevel,
                                        RiskReason := r.RiskReason } }

/-- The merge of `OpenAIAssessor.ScorePackageRisks` over the whole
package list (value-level view of the loop over the copied slice). -/
def mergeScores (results : List CompatibilityScore) (packages : List Info) : List Info :=
  packages.map (applyScore results)

/-- `OpenAIAssessor.ScorePackageRisks` with the oracle round trip
abstracted as an `Except` parameter: the outcome of
`compatibilityScoreRequestFn`, which is an error on transport failure,
schema violation, or unparsable payload.  On error the whole operation
fails with that error and nothing is merged. -/
def ScorePackageRisks (oracle : Except String (List CompatibilityScore))
    (packages : List Info) : Except String (List Info) :=
  match oracle with
  | .error e => .error e
  | .ok results => .ok (mergeScores results packages)

/-- The step of `generatePrompt`'s loop: packages without an upgrade
record or without a changelog contribute nothing. -/
def promptStep (prompt : String) (p : Info) : String :=
  match p.Upgrade with
  | none => prompt
  | some u =>
    match u.Changelog with
    | none => prompt
    | some c =>
      prompt ++ "Package: " ++ p.Name ++ "\nUpdate: " ++ p.Version ++ " -> "
        ++ u.NewVersion ++ "\nChangelog:\n" ++ c.Raw ++ "\n\n"

/-- `generatePrompt`: the batched oracle request text. -/
def generatePrompt (packages : List Info) : String :=
  packages.foldl promptStep
    "Analyze these Ubuntu package updates and provide a compatibility assessment:\n\n"

/-- Outcome of the tail of `main` after enrichment: either the run is
aborted by a scoring error before any apply step, or scoring succeeded
and `UpdatePackages` ran on the scored list. -/
inductive RunOutcome where
  | abortedBeforeApply : String → RunOutcome
  | finished : List Info → Option UpdateAction → RunOutcome
deriving DecidableEq

/-- The scoring-then-apply tail of `main`: on a scoring error the run
exits before the apply step; otherwise the scored packages are passed
to `UpdatePackages`. -/
def runScoreAndApply (oracle : Except String (List CompatibilityScore))
    (packages : List Info) : RunOutcome :=
  match ScorePackageRisks oracle packages with
  | .error e => .abortedBeforeApply e
  | .ok scored => .finished scored (UpdatePackages scored)

/-! ## Pointer-level model of the merge (for the aliasing behaviour)

In Go, `Info.Upgrade` is a pointer `*UpgradeInfo`.  `ScorePackageRisks`
copies only the slice of `Info` values, so the copies hold the same
pointers, and the merge writes through them.  The heap of
`UpgradeInfo` cells is modelled as a total function from addresses. -/

/-- A heap of `UpgradeInfo` cells addressed by natural numbers. -/
def UpgradeHeap : Type := Nat → UpgradeInfo

/-- Store `u` at address `a`. -/
def heapWrite (h : UpgradeHeap) (a : Nat) (u : UpgradeInfo) : UpgradeHeap :=
  fun x => if x = a then u else h x

/-- `packagemanager.Info` with its Go pointer field explicit: `Upgrade`
is a nullable address of an `UpgradeInfo` cell. -/
structure InfoRef where
  Name : String
  Version : String
  Architecture : String
  Description : String
  Upgrade : Option Nat
deriving DecidableEq

/-- One iteration of the merge loop of `ScorePackageRisks` at the
pointer level: skip nil pointers, otherwise write the first matching
response entry's risk fields through the package's pointer. -/
def mergeStep (results : List CompatibilityScore) (h : UpgradeHeap) (p : InfoRef) : UpgradeHeap :=
  match p.Upgrade with
  | none => h
  | some a =>
    match findScore p.Name results with
    | none => h
    | some r => heapWrite h a { h a with RiskLevel := r.RiskLevel,
                                         RiskReason := r.RiskReason }

/-- `OpenAIAssessor.ScorePackageRisks` at the pointer level.  The slice
copy `scoredPackages := make(...); copy(scoredPackages, packages)`
duplicates the `Info` values but not the pointed-to `UpgradeInfo`
records, so the returned list is the input list and the merge mutates
the shared heap. -/
def ScorePackageRisksH (oracle : Except String (List CompatibilityScore))
    (packages : List InfoRef) (h : UpgradeHeap) :
    Except String (List InfoRef) × UpgradeHeap :=
  match oracle with
  | .error e => (.error e, h)
  | .ok results => (.ok packages, packages.foldl (mergeStep results) h)

/-! ## Changelog Parser (`Manager.GetChangelog`)

`apt changelog <pkg>` output is passed in as `output`; the Go function
returns nil when the command fails, which is outside this pure model. -/

/-- Concatenation of a list of strings (Go `strings.Builder` output). -/
def strJoinAll : List String → String
  | [] => ""
  | s :: rest => s ++ strJoinAll rest

/-- Newline as a separator between elements (no trailing newline). -/
def strIntercalateNl : List String → String
  | [] => ""
  | [s] => s
  | s :: rest => s ++ "\n" ++ strIntercalateNl rest

/-- The mutable state of the scan loop in `Manager.GetChangelog`. -/
structure ClState where
  urgency : String
  summary : String
  author : String
  date : String
  cves : List String
  raw : String

/-- The urgency parse of the scan loop: on a line containing
"urgency=", the text between the first "urgency=" and the next
occurrence (Go `strings.Split(line, "urgency=")[1]`) is cut at its
first space when that space is not leading, and space-trimmed
otherwise. -/
def clUrgency (st : ClState) (line : String) : ClState :=
  if strContains line "urgency=" then
    match afterFirstSub line.data "urgency=".data with
    | none => st
    | some restChars =>
      let part := upToSub restChars "urgency=".data
      match idxOfChar ' ' part with
      | some idx =>
        if 0 < idx then { st with urgency := String.mk (part.take idx) }
        else { st with urgency := strTrimSpace (String.mk part) }
      | none => { st with urgency := strTrimSpace (String.mk part) }
  else st

/-- The summary capture: the first starred non-empty line at index
greater than 2 while no summary has been taken yet. -/
def clSummary (st : ClState) (i : Nat) (line : String) : ClState :=
  if i > 2 && st.summary == "" && !(strTrimSpace line == "") &&
      strHasPre (strTrimSpace line) "*" then
    { st with summary := strTrimSpace line }
  else st

/-- The CVE collection: whitespace-delimited tokens starting with
"CVE-", trimmed of '.' and ',', appended in order of appearance. -/
def clCVEs (st : ClState) (line : String) : ClState :=
  if strContains line "CVE-" then
    { st with cves := st.cves ++
        ((fields line).filter (fun w => strHasPre w "CVE-")).map strTrimCut }
  else st

/-- The footer parse: a line starting with " -- " is stripped of that
marker and split on the first double space into author and date. -/
def clFooter (st : ClState) (line : String) : ClState :=
  if strHasPre line " -- " then
    match afterFirstSub (line.data.drop 4) "  ".data with
    | none => st
    | some afterChars =>
      { st with author := strTrimSpace (String.mk (upToSub (line.data.drop 4) "  ".data)),
                date := strTrimSpace (String.mk afterChars) }
  else st

/-- The body of the scan loop of `Manager.GetChangelog` for one
non-stop line at index `i`, in the statement order of the Go loop:
urgency, summary, CVEs, footer, then append the line plus a newline to
the raw accumulator. -/
def clLine (st : ClState) (i : Nat) (line : String) : ClState :=
  let st4 := clFooter (clCVEs (clSummary (clUrgency st line) i line) line) line
  { st4 with raw := st4.raw ++ (line ++ "\n") }

/-- The scan loop of `Manager.GetChangelog`: process lines in order,
breaking at the first line that contains `stop` as a substring (that
line is not processed). -/
def clScan (stop : String) : List String → Nat → ClState → ClState
  | [], _, st => st
  | line :: rest, i, st =>
    if strContains line stop then st
    else clScan stop rest (i + 1) (clLine st i line)

/-- `Manager.GetChangelog` on the text of `apt changelog`'s output. -/
def GetChangelog (output stop : String) : ChangelogInfo :=
  let st := clScan stop (splitLines output) 0 (ClState.mk "" "" "" "" [] "")
  ChangelogInfo.mk st.summary st.urgency st.cves st.author st.date st.raw

/-- The lines scanned before the stop: the longest leading segment of
the split output none of whose lines contains `stop`. -/
def preStopLines (output stop : String) : List String :=
  (splitLines output).takeWhile (fun l => !(strContains l stop))

/-- Modelled from the claim's words: `raw` as the newline-joined
(separator-style, no trailing newline) sequence of the pre-stop
lines. -/
def rawNewlineJoined (output stop : String) : String :=
  strIntercalateNl (preStopLines output stop)

/-! ## Inventory Reader (`Manager.GetInstalledPackages`) -/

/-- Go `strings.Join(l, " ")`. -/
def joinSpace : List String → String
  | [] => ""
  | [s] => s
  | s :: rest => s ++ " " ++ joinSpace rest

/-- One line of `dpkg -l` output: skip lines not starting with "ii" and
lines with fewer than five whitespace-separated fields; otherwise map
fields 1..3 to name/version/architecture and join the remaining fields
as the description. -/
def parseInstalledLine (line : String) : Option Info :=
  if strHasPre line "ii" then
    if (fields line).length < 5 then none
    else some (Info.mk ((fields line).getD 1 "") ((fields line).getD 2 "")
      ((fields line).getD 3 "") (joinSpace ((fields line).drop 4)) none)
  else none

/-- The loop of `Manager.GetInstalledPackages` over the split lines. -/
def GetInstalledPackagesLines (lines : List String) : List Info :=
  lines.filterMap parseInstalledLine

/-- `Manager.GetInstalledPackages` on the text of `dpkg -l`'s output. -/
def GetInstalledPackages (output : String) : List Info :=
  GetInstalledPackagesLines (splitLines output)

/-! ## Snapshot Store (`internal/storage/storage.go`) -/

/-- The counters accumulated by `WriteSummaryIfMissing`'s loop. -/
structure RiskCounts where
  total : Nat
  high : Nat
  medium : Nat
  low : Nat
  highPkgs : List String
  mediumPkgs : List String

/-- One iteration of the counting loop: skip packages without an
upgrade record, count every other package, and tally the exact-match
risk tiers ("high" and "medium" also record the package name in input
order). -/
def countStep (c : RiskCounts) (p : Info) : RiskCounts :=
  match p.Upgrade with
  | none => c
  | some u =>
    let c1 := { c with total := c.total + 1 }
    if u.RiskLevel == "high" then
      { c1 with high := c1.high + 1, highPkgs := c1.highPkgs ++ [p.Name] }
    else if u.RiskLevel == "medium" then
      { c1 with medium := c1.medium + 1, mediumPkgs := c1.mediumPkgs ++ [p.Name] }
    else if u.RiskLevel == "low" then
      { c1 with low := c1.low + 1 }
    else c1

/-- The counting loop of `WriteSummaryIfMissing`. -/
def riskCounts (packages : List Info) : RiskCounts :=
  packages.foldl countStep (RiskCounts.mk 0 0 0 0 [] [])

/-- The "- name" lines of a package list in the summary. -/
def summaryPkgLines (pkgs : List String) : String :=
  strJoinAll (pkgs.map (fun p => "- " ++ p ++ "\n"))

/-- The summary report rendered by `WriteSummaryIfMissing` (the
`time.Now()` timestamp is passed in explicitly). -/
def summaryText (timestamp : String) (packages : List Info) : String :=
  let c := riskCounts packages
  "Update Summary - " ++ timestamp ++ "\n\n" ++
  "Total packages available for update: " ++ toString c.total ++ "\n" ++
  "High risk updates: " ++ toString c.high ++ "\n" ++
  "Medium risk updates: " ++ toString c.medium ++ "\n" ++
  "Low risk updates: " ++ toString c.low ++ "\n\n" ++
  (if c.highPkgs.length > 0 then
     "High risk packages (manual review recommended):\n" ++
       summaryPkgLines c.highPkgs ++ "\n"
   else "") ++
  (if c.mediumPkgs.length > 0 then
     "Medium risk packages (caution advised):\n" ++
       summaryPkgLines c.mediumPkgs ++ "\n"
   else "") ++
  "Low risk packages will be updated automatically.\n"

/-- Result of `WriteSummaryIfMissing`: the summary file's content after
the call for the snapshot id, and whether this call wrote it. -/
structure SummaryWriteResult where
  file : Option String
  wrote : Bool
deriving DecidableEq

/-- `Storage.WriteSummaryIfMissing` for one snapshot id, with the
filesystem state for that id (`none` when `summary.txt` does not exist,
`some content` when it does) passed explicitly: when the file exists
the call returns without writing; otherwise it renders and writes the
summary. -/
def WriteSummaryIfMissing (existing : Option String) (timestamp : String)
    (packages : List Info) : SummaryWriteResult :=
  match existing with
  | some content => SummaryWriteResult.mk (some content) false
  | none => SummaryWriteResult.mk (some (summaryText timestamp packages)) true

/-! ## Snapshot serialization (`WriteSnapshot` / `ReadSnapshot`)

`encoding/json` marshalling of `[]packagemanager.Info` is modelled at
the level of JSON values; the Go encoder renders a value to text
injectively, and the decoder parses it back, so the text layer is
abstracted away and `omitempty`/zero-value semantics are kept. -/

/-- JSON values. -/
inductive Json where
  | null : Json
  | bool : Bool → Json
  | str : String → Json
  | arr : List Json → Json
  | obj : List (String × Json) → Json

/-- First binding of a key in a JSON object (the encoder below never
produces duplicate keys). -/
def jsonGet : List (String × Json) → String → Option Json
  | [], _ => none
  | (k, v) :: rest, key => if k == key then some v else jsonGet rest key

/-- Marshalling of `ChangelogInfo`: `cves`, `author` and `date` carry
`omitempty`. -/
def encChangelog (c : ChangelogInfo) : Json :=
  Json.obj
    ([("summary", Json.str c.Summary), ("urgency", Json.str c.Urgency)] ++
     (if c.CVEs.isEmpty then [] else [("cves", Json.arr (c.CVEs.map Json.str))]) ++
     (if c.Author == "" then [] else [("author", Json.str c.Author)]) ++
     (if c.Date == "" then [] else [("date", Json.str c.Date)]) ++
     [("raw", Json.str c.Raw)])

/-- Marshalling of `UpgradeInfo`: `changelog`, `risk_level` and
`risk_reason` carry `omitempty`. -/
def encUpgrade (u : UpgradeInfo) : Json :=
  Json.obj
    ([("new_version", Json.str u.NewVersion), ("has_upgrade", Json.bool u.HasUpgrade)] ++
     (match u.Changelog with
      | none => []
      | some c => [("changelog", encChangelog c)]) ++
     (if u.RiskLevel == "" then [] else [("risk_level", Json.str u.RiskLevel)]) ++
     (if u.RiskReason == "" then [] else [("risk_reason", Json.str u.RiskReason)]))

/-- Marshalling of `Info`: `upgrade` carries `omitempty`. -/
def encInfo (p : Info) : Json :=
  Json.obj
    ([("name", Json.str p.Name), ("version", Json.str p.Version),
      ("architecture", Json.str p.Architecture), ("description", Json.str p.Description)] ++
     (match p.Upgrade with
      | none => []
      | some u => [("upgrade", encUpgrade u)]))

/-- `Storage.WriteSnapshot`: the JSON document written to the snapshot
file for the given package collection. -/
def WriteSnapshot (packages : List Info) : Json :=
  Json.arr (packages.map encInfo)

/-- Unmarshalling a string field: a missing field or JSON null leaves
the zero value ""; any non-string value is a decode error. -/
def decStr : Option Json → Option String
  | none => some ""
  | some (Json.str s) => some s
  | some Json.null => some ""
  | some _ => none

/-- Unmarshalling a bool field: missing or null leaves false. -/
def decBool : Option Json → Option Bool
  | none => some false
  | some (Json.bool b) => some b
  | some Json.null => some false
  | some _ => none

/-- Unmarshalling the elements of a string array. -/
def decStrElems : List Json → Option (List String)
  | [] => some []
  | Json.str s :: rest => (decStrElems rest).map (s :: ·)
  | Json.null :: rest => (decStrElems rest).map ("" :: ·)
  | _ => none

/-- Unmarshalling a `[]string` field: missing or null leaves nil. -/
def decStrList : Option Json → Option (List String)
  | none => some []
  | some Json.null => some []
  | some (Json.arr xs) => decStrElems xs
  | some _ => none

/-- Unmarshalling `ChangelogInfo` from an object. -/
def decChangelog : Json → Option ChangelogInfo
  | Json.obj fs => do
    let s ← decStr (jsonGet fs "summary")
    let u ← decStr (jsonGet fs "urgency")
    let cv ← decStrList (jsonGet fs "cves")
    let a ← decStr (jsonGet fs "author")
    let d ← decStr (jsonGet fs "date")
    let r ← decStr (jsonGet fs "raw")
    pure (ChangelogInfo.mk s u cv a d r)
  | _ => none

/-- Unmarshalling the nullable `*ChangelogInfo` field. -/
def decOptChangelog : Option Json → Option (Option ChangelogInfo)
  | none => some none
  | some Json.null => some none
  | some j => (decChangelog j).map some

/-- Unmarshalling `UpgradeInfo` from an object. -/
def decUpgrade : Json → Option UpgradeInfo
  | Json.obj fs => do
    let nv ← decStr (jsonGet fs "new_version")
    let hu ← decBool (jsonGet fs "has_upgrade")
    let cl ← decOptChangelog (jsonGet fs "changelog")
    let rl ← decStr (jsonGet fs "risk_level")
    let rr ← decStr (jsonGet fs "risk_reason")
    pure (UpgradeInfo.mk nv hu cl rl rr)
  | _ => none

/-- Unmarshalling the nullable `*UpgradeInfo` field. -/
def decOptUpgrade : Option Json → Option (Option UpgradeInfo)
  | none => some none
  | some Json.null => some none
  | some j => (decUpgrade j).map some

/-- Unmarshalling `Info` from an object. -/
def decInfo : Json → Option Info
  | Json.obj fs => do
    let n ← decStr (jsonGet fs "name")
    let v ← decStr (jsonGet fs "version")
    let a ← decStr (jsonGet fs "architecture")
    let d ← decStr (jsonGet fs "description")
    let u ← decOptUpgrade (jsonGet fs "upgrade")
    pure (Info.mk n v a d u)
  | _ => none

/-- Unmarshalling the elements of the snapshot array. -/
def decInfoElems : List Json → Option (List Info)
  | [] => some []
  | j :: rest => do
    let p ← decInfo j
    let ps ← decInfoElems rest
    pure (p :: ps)

/-- `Storage.ReadSnapshot`: decode the snapshot document back into the
package collection. -/
def ReadSnapshot : Json → Option (List Info)
  | Json.arr xs => decInfoElems xs
  | Json.null => some []
  | _ => none

theorem selectSafe_eq_lowRiskNames (packages : List Info)
    (hall : ∀ p ∈ packages, p.Upgrade ≠ none) :
    selectSafe packages = some (lowRiskNames packages) := by
  induction packages with
  | nil => rfl
  | cons p rest ih =>
    have hp : p.Upgrade ≠ none := hall p (List.mem_cons_self p rest)
    obtain ⟨u, hu⟩ := Option.ne_none_iff_exists'.mp hp
    have ihr := ih (fun q hq => hall q (List.mem_cons_of_mem p hq))
    simp only [selectSafe, hu, ihr, lowRiskNames, List.filter_cons]
    by_cases hlow : strToLower u.RiskLevel == "low"
    · simp [hlow, lowRiskNames]
    · simp only [hu] at *
      simp [hlow, lowRiskNames]

theorem selectSafe_none_iff (packages : List Info) :
    selectSafe packages = none ↔ ∃ p ∈ packages, p.Upgrade = none := by
  induction packages with
  | nil => simp [selectSafe]
  | cons p rest ih =>
    cases hu : p.Upgrade with
    | none =>
      simp only [selectSafe, hu]
      constructor
      · intro _
        exact ⟨p, List.mem_cons_self p rest, hu⟩
      · intro _
        trivial
    | some u =>
      simp only [selectSafe, hu]
      cases hr : selectSafe rest with
      | none =>
        simp only [hr]
        constructor
        · intro _
          obtain ⟨q, hq, hqn⟩ := ih.mp hr
          exact ⟨q, List.mem_cons_of_mem p hq, hqn⟩
        · intro _
          trivial
      | some safe =>
        simp only [hr]
        constructor
        · intro h
          exact absurd h (by simp)
        · intro ⟨q, hq, hqn⟩
          rcases List.mem_cons.mp hq with hqp | hqr
          · subst hqp
            rw [hu] at hqn
            cases hqn
          · rw [ih.mpr ⟨q, hqr, hqn⟩] at hr
            cases hr

/-- C1: for every package list given to the Update Applicator in which
every package carries an upgrade record (the pipeline invariant) with
pairwise distinct names, `UpdatePackages` selects exactly the packages
whose `risk_level`, case-folded, equals "low"; when the selection is
empty it performs no external batch-upgrade call and succeeds, and
otherwise the one external call names exactly the selected packages;
in particular a package whose `risk_level` is the empty string is never
among the applied names. -/
theorem updatePackages_applies_exactly_low_risk (packages : List Info)
    (hall : ∀ p ∈ packages, p.Upgrade ≠ none)
    (hnames : (packages.map Info.Name).Nodup) :
    UpdatePackages packages =
      some (if lowRiskNames packages = [] then UpdateAction.noCall
            else UpdateAction.aptGetUpgrade (lowRiskNames packages)) ∧
    ∀ p ∈ packages, ∀ u, p.Upgrade = some u → u.RiskLevel = "" →
      p.Name ∉ lowRiskNames packages := by
  constructor
  · rw [UpdatePackages, selectSafe_eq_lowRiskNames packages hall]
    by_cases h : lowRiskNames packages = [] <;> simp [h]
  · intro p hp u hu hrisk hmem
    obtain ⟨q, hqmem, hqname⟩ := List.mem_map.mp hmem
    have hq := List.mem_filter.mp hqmem
    have hqp : q = p := List.inj_on_of_nodup_map hnames hq.1 hp hqname
    subst hqp
    have h2 := hq.2
    rw [hu] at h2
    have h3 : (strToLower u.RiskLevel == "low") = true := h2
    rw [hrisk] at h3
    exact absurd h3 (by decide)

/-- Closed witness for C1 at a concrete three-package input. -/
theorem updatePackages_applies_exactly_low_risk_witness :
    ((∀ p ∈ [Info.mk "alpha" "1" "amd64" "d" (some ⟨"2", true, none, "Low", "ok"⟩),
              Info.mk "beta" "1" "amd64" "d" (some ⟨"2", true, none, "medium", "r"⟩),
              Info.mk "gamma" "1" "amd64" "d" (some ⟨"2", true, none, "", ""⟩)],
        p.Upgrade ≠ none) ∧
     ([Info.mk "alpha" "1" "amd64" "d" (some ⟨"2", true, none, "Low", "ok"⟩),
       Info.mk "beta" "1" "amd64" "d" (some ⟨"2", true, none, "medium", "r"⟩),
       Info.mk "gamma" "1" "amd64" "d" (some ⟨"2", true, none, "", ""⟩)].map Info.Name).Nodup) ∧
    UpdatePackages
      [Info.mk "alpha" "1" "amd64" "d" (some ⟨"2", true, none, "Low", "ok"⟩),
       Info.mk "beta" "1" "amd64" "d" (some ⟨"2", true, none, "medium", "r"⟩),
       Info.mk "gamma" "1" "amd64" "d" (some ⟨"2", true, none, "", ""⟩)] =
      some (UpdateAction.aptGetUpgrade ["alpha"]) := by
  refine ⟨⟨by decide, by decide⟩, ?_⟩
  have h := (updatePackages_applies_exactly_low_risk
    [Info.mk "alpha" "1" "amd64" "d" (some ⟨"2", true, none, "Low", "ok"⟩),
     Info.mk "beta" "1" "amd64" "d" (some ⟨"2", true, none, "medium", "r"⟩),
     Info.mk "gamma" "1" "amd64" "d" (some ⟨"2", true, none, "", ""⟩)]
    (by decide) (by decide)).1
  rw [h]
  decide

/-- C9: `UpdatePackages` dereferences every package's upgrade record
with no nil guard: the run fails (modelled as `none`, the nil-pointer
panic, producing no external call) exactly when some input package
carries no upgrade record; under the implicit precondition that every
package carries one, it cannot fail. -/
theorem updatePackages_panics_iff_missing_upgrade (packages : List Info) :
    UpdatePackages packages = none ↔ ∃ p ∈ packages, p.Upgrade = none := by
  rw [UpdatePackages]
  cases hs : selectSafe packages with
  | none => simpa [hs] using (selectSafe_none_iff packages).mp hs
  | some safe =>
    have : ¬ ∃ p ∈ packages, p.Upgrade = none := by
      intro hex
      exact absurd ((selectSafe_none_iff packages).mpr hex) (by simp [hs])
    by_cases h : safe.isEmpty <;> simp [h, this]

/-- Closed witness for C9: a single package without an upgrade record
makes the selection loop fail before any external call. -/
theorem updatePackages_panics_iff_missing_upgrade_witness :
    UpdatePackages [Info.mk "alpha" "1" "amd64" "d" none] = none :=
  (updatePackages_panics_iff_missing_upgrade
    [Info.mk "alpha" "1" "amd64" "d" none]).mpr
    ⟨Info.mk "alpha" "1" "amd64" "d" none, by decide, rfl⟩

theorem findScore_eq_none_iff (name : String) (rs : List CompatibilityScore) :
    findScore name rs = none ↔ ∀ r ∈ rs, r.Name ≠ name := by
  induction rs with
  | nil => simp [findScore]
  | cons r rest ih =>
    by_cases h : r.Name = name
    · simp [findScore, h]
    · simp [findScore, h, ih]

theorem findScore_first (name : String) (rs1 : List CompatibilityScore)
    (r : CompatibilityScore) (rs2 : List CompatibilityScore)
    (hr : r.Name = name) (hnot : ∀ q ∈ rs1, q.Name ≠ name) :
    findScore name (rs1 ++ r :: rs2) = some r := by
  induction rs1 with
  | nil => simp [findScore, hr]
  | cons q rest ih =>
    have hq : q.Name ≠ name := hnot q (List.mem_cons_self q rest)
    simp only [List.cons_append, findScore]
    rw [if_neg (by simpa using hq)]
    exact ih (fun x hx => hnot x (List.mem_cons_of_mem q hx))

theorem applyScore_of_no_match (results : List CompatibilityScore) (p : Info)
    (h : ∀ r ∈ results, r.Name ≠ p.Name) :
    applyScore results p = p := by
  unfold applyScore
  cases hu : p.Upgrade with
  | none => rfl
  | some u => rw [(findScore_eq_none_iff p.Name results).mpr h]

/-- C2: the merge step of `ScorePackageRisks` maps every package to its
scored version: for a package carrying an upgrade record, the first
oracle-response entry whose name equals the package's name by exact
case-sensitive comparison supplies `risk_level` and `risk_reason`,
copied onto the upgrade record with all other fields preserved; a
package with no matching response entry is returned unchanged, so empty
risk fields stay empty. -/
theorem scoreMerge_first_exact_match (results : List CompatibilityScore)
    (packages : List Info) :
    mergeScores results packages = packages.map (applyScore results) ∧
    ∀ p : Info, ∀ u : UpgradeInfo, p.Upgrade = some u →
      ((∀ rs1 r rs2, results = rs1 ++ r :: rs2 → r.Name = p.Name →
          (∀ q ∈ rs1, q.Name ≠ p.Name) →
          applyScore results p =
            { p with Upgrade := some { u with RiskLevel := r.RiskLevel,
                                              RiskReason := r.RiskReason } }) ∧
       ((∀ r ∈ results, r.Name ≠ p.Name) → applyScore results p = p)) := by
  refine ⟨rfl, fun p u hu => ⟨?_, fun h => applyScore_of_no_match results p h⟩⟩
  intro rs1 r rs2 hres hr hnot
  unfold applyScore
  rw [hu, hres, findScore_first p.Name rs1 r rs2 hr hnot]

/-- Closed witness for C2: with two response entries bearing the same
name, the first one wins, and its fields are copied onto the package. -/
theorem scoreMerge_first_exact_match_witness :
    mergeScores
      [CompatibilityScore.mk "alpha" "low" "first",
       CompatibilityScore.mk "alpha" "high" "second"]
      [Info.mk "alpha" "1" "amd64" "d" (some ⟨"2", true, none, "", ""⟩)] =
      [Info.mk "alpha" "1" "amd64" "d" (some ⟨"2", true, none, "low", "first"⟩)] := by
  have h := scoreMerge_first_exact_match
      [CompatibilityScore.mk "alpha" "low" "first",
       CompatibilityScore.mk "alpha" "high" "second"]
      [Info.mk "alpha" "1" "amd64" "d" (some ⟨"2", true, none, "", ""⟩)]
  have h2 := (h.2 (Info.mk "alpha" "1" "amd64" "d" (some ⟨"2", true, none, "", ""⟩))
      ⟨"2", true, none, "", ""⟩ rfl).1
      [] (CompatibilityScore.mk "alpha" "low" "first")
      [CompatibilityScore.mk "alpha" "high" "second"] rfl rfl (by decide)
  rw [h.1, List.map_cons, List.map_nil, h2]

/-- C3 counterexample: a package whose upgrade record has no changelog
does receive a risk score when the response names it — the merge
matches by name only and never checks for a changelog.  Here the
package's risk fields were empty, the response (whose names the claim
quantifies over) contains the package's name, and after the merge
`risk_level` is "low", not empty. -/
theorem noChangelog_still_scored_counterexample :
    (Info.mk "ghost" "1" "amd64" "d" (some ⟨"2", true, none, "", ""⟩)).Upgrade =
      some ⟨"2", true, none, "", ""⟩ ∧
    mergeScores [CompatibilityScore.mk "ghost" "low" "hallucinated"]
      [Info.mk "ghost" "1" "amd64" "d" (some ⟨"2", true, none, "", ""⟩)] =
      [Info.mk "ghost" "1" "amd64" "d" (some ⟨"2", true, none, "low", "hallucinated"⟩)] ∧
    ("low" : String) ≠ "" := by
  refine ⟨rfl, ?_, by decide⟩
  decide

/-- C3 amended: a package whose upgrade record has no changelog
contributes no block to the prompt, and its risk fields remain
unchanged (in particular empty) after the merge provided no response
entry bears the package's name — which is the case whenever the
response names only packages that appear in the prompt. -/
theorem noChangelog_no_prompt_block (xs ys : List Info) (p : Info) (u : UpgradeInfo)
    (hu : p.Upgrade = some u) (hc : u.Changelog = none) :
    generatePrompt (xs ++ p :: ys) = generatePrompt (xs ++ ys) ∧
    ∀ results : List CompatibilityScore, (∀ r ∈ results, r.Name ≠ p.Name) →
      mergeScores results (xs ++ p :: ys) =
        mergeScores results xs ++ p :: mergeScores results ys := by
  constructor
  · unfold generatePrompt
    rw [List.foldl_append, List.foldl_append, List.foldl_cons]
    have hstep : ∀ acc, promptStep acc p = acc := by
      intro acc
      simp only [promptStep, hu, hc]
    rw [hstep]
  · intro results hres
    unfold mergeScores
    rw [List.map_append, List.map_cons, applyScore_of_no_match results p hres]

/-- Closed witness for C3's amended statement at a concrete input. -/
theorem noChangelog_no_prompt_block_witness :
    ((Info.mk "ghost" "1" "amd64" "d" (some ⟨"2", true, none, "", ""⟩)).Upgrade =
        some ⟨"2", true, none, "", ""⟩) ∧
    generatePrompt [Info.mk "ghost" "1" "amd64" "d" (some ⟨"2", true, none, "", ""⟩)] =
      generatePrompt [] ∧
    mergeScores [CompatibilityScore.mk "other" "low" "r"]
      [Info.mk "ghost" "1" "amd64" "d" (some ⟨"2", true, none, "", ""⟩)] =
      [Info.mk "ghost" "1" "amd64" "d" (some ⟨"2", true, none, "", ""⟩)] := by
  have h := noChangelog_no_prompt_block [] []
      (Info.mk "ghost" "1" "amd64" "d" (some ⟨"2", true, none, "", ""⟩))
      ⟨"2", true, none, "", ""⟩ rfl rfl
  exact ⟨rfl, h.1, by simpa using h.2 [CompatibilityScore.mk "other" "low" "r"] (by decide)⟩

/-- C4: when the oracle call errors (transport failure, schema
violation, or unparsable payload — all surfaced as the error outcome of
the request function), the entire scoring operation returns that error
with no partial result, the pointer-level state is untouched (no
package's risk fields are modified), and the caller aborts the run
before any apply step. -/
theorem oracleFailure_aborts_run (e : String) (packages : List Info)
    (packagesR : List InfoRef) (h : UpgradeHeap) :
    ScorePackageRisks (Except.error e) packages = Except.error e ∧
    ScorePackageRisksH (Except.error e) packagesR h = (Except.error e, h) ∧
    runScoreAndApply (Except.error e) packages = RunOutcome.abortedBeforeApply e :=
  ⟨rfl, rfl, rfl⟩

theorem mergeFold_frame (results : List CompatibilityScore) (packages : List InfoRef)
    (h : UpgradeHeap) (a : Nat) (hnot : ∀ p ∈ packages, p.Upgrade ≠ some a) :
    packages.foldl (mergeStep results) h a = h a := by
  induction packages generalizing h with
  | nil => rfl
  | cons p rest ih =>
    rw [List.foldl_cons, ih _ (fun q hq => hnot q (List.mem_cons_of_mem p hq))]
    have hpa : p.Upgrade ≠ some a := hnot p (List.mem_cons_self p rest)
    unfold mergeStep
    cases hu : p.Upgrade with
    | none => rfl
    | some b =>
      cases findScore p.Name results with
      | none => rfl
      | some r =>
        have hab : a ≠ b := by
          intro e
          exact hpa (by rw [hu, e])
        simp [heapWrite, hab]

theorem mergeFold_writes (results : List CompatibilityScore) (packages : List InfoRef)
    (h : UpgradeHeap) (hnd : (packages.filterMap InfoRef.Upgrade).Nodup)
    (p : InfoRef) (hp : p ∈ packages) (a : Nat) (ha : p.Upgrade = some a) :
    packages.foldl (mergeStep results) h a =
      match findScore p.Name results with
      | some r => { h a with RiskLevel := r.RiskLevel, RiskReason := r.RiskReason }
      | none => h a := by
  induction packages generalizing h with
  | nil => cases hp
  | cons q rest ih =>
    rw [List.foldl_cons]
    rcases List.mem_cons.mp hp with hpq | hpr
    · subst hpq
      have hfm : (p :: rest).filterMap InfoRef.Upgrade =
          a :: rest.filterMap InfoRef.Upgrade := by
        simp [List.filterMap_cons, ha]
      rw [hfm] at hnd
      have hanotin : a ∉ rest.filterMap InfoRef.Upgrade := (List.nodup_cons.mp hnd).1
      have hrest : ∀ q ∈ rest, q.Upgrade ≠ some a := by
        intro q hq hqa
        exact hanotin (List.mem_filterMap.mpr ⟨q, hq, hqa⟩)
      rw [mergeFold_frame results rest _ a hrest]
      unfold mergeStep
      rw [ha]
      cases findScore p.Name results with
      | none => rfl
      | some r => simp [heapWrite]
    · have hqne : ∀ b, q.Upgrade = some b → b ≠ a := by
        intro b hb hba
        subst hba
        have h1 : (q :: rest).filterMap InfoRef.Upgrade =
            b :: rest.filterMap InfoRef.Upgrade := by
          simp [List.filterMap_cons, hb]
        rw [h1] at hnd
        exact (List.nodup_cons.mp hnd).1 (List.mem_filterMap.mpr ⟨p, hpr, ha⟩)
      have hstep : mergeStep results h q a = h a := by
        unfold mergeStep
        cases hqu : q.Upgrade with
        | none => rfl
        | some b =>
          cases findScore q.Name results with
          | none => rfl
          | some r =>
            have hab : a ≠ b := Ne.symm (hqne b hqu)
            simp [heapWrite, hab]
      have hndr : (rest.filterMap InfoRef.Upgrade).Nodup := by
        cases hqu : q.Upgrade with
        | none =>
          simpa [List.filterMap_cons, hqu] using hnd
        | some b =>
          rw [show (q :: rest).filterMap InfoRef.Upgrade =
              b :: rest.filterMap InfoRef.Upgrade by simp [List.filterMap_cons, hqu]] at hnd
          exact (List.nodup_cons.mp hnd).2
      rw [ih (mergeStep results h q) hndr hpr, hstep]

/-- C10: `ScorePackageRisks` copies only the slice of package records:
the returned scored list is the input list itself, pointers included,
so the input's and output's upgrade records are identical after the
call; and (for the well-formed state in which distinct packages point
to distinct upgrade cells) the merge writes `risk_level` and
`risk_reason` through those shared pointers, so the caller's input
packages see the merged values. -/
theorem scorePackageRisks_aliases_input (results : List CompatibilityScore)
    (packages : List InfoRef) (h : UpgradeHeap)
    (hnd : (packages.filterMap InfoRef.Upgrade).Nodup) :
    (ScorePackageRisksH (Except.ok results) packages h).1 = Except.ok packages ∧
    ∀ p ∈ packages, ∀ a, p.Upgrade = some a →
      (ScorePackageRisksH (Except.ok results) packages h).2 a =
        match findScore p.Name results with
        | some r => { h a with RiskLevel := r.RiskLevel, RiskReason := r.RiskReason }
        | none => h a := by
  refine ⟨rfl, ?_⟩
  intro p hp a ha
  exact mergeFold_writes results packages h hnd p hp a ha

/-- Closed witness for C10 at a one-package state whose upgrade cell is
address 0. -/
theorem scorePackageRisks_aliases_input_witness :
    (([InfoRef.mk "alpha" "1" "amd64" "d" (some 0)].filterMap InfoRef.Upgrade).Nodup) ∧
    ((ScorePackageRisksH (Except.ok [CompatibilityScore.mk "alpha" "low" "ok"])
        [InfoRef.mk "alpha" "1" "amd64" "d" (some 0)]
        (fun _ => UpgradeInfo.mk "2" true none "" "")).1 =
      Except.ok [InfoRef.mk "alpha" "1" "amd64" "d" (some 0)] ∧
     ∀ p ∈ [InfoRef.mk "alpha" "1" "amd64" "d" (some 0)], ∀ a, p.Upgrade = some a →
       (ScorePackageRisksH (Except.ok [CompatibilityScore.mk "alpha" "low" "ok"])
          [InfoRef.mk "alpha" "1" "amd64" "d" (some 0)]
          (fun _ => UpgradeInfo.mk "2" true none "" "")).2 a =
         match findScore p.Name [CompatibilityScore.mk "alpha" "low" "ok"] with
         | some r => { (fun _ : Nat => UpgradeInfo.mk "2" true none "" "") a with
                        RiskLevel := r.RiskLevel, RiskReason := r.RiskReason }
         | none => (fun _ : Nat => UpgradeInfo.mk "2" true none "" "") a) :=
  ⟨by decide,
   scorePackageRisks_aliases_input
     [CompatibilityScore.mk "alpha" "low" "ok"]
     [InfoRef.mk "alpha" "1" "amd64" "d" (some 0)]
     (fun _ => UpgradeInfo.mk "2" true none "" "") (by decide)⟩

theorem clUrgency_raw (st : ClState) (line : String) :
    (clUrgency st line).raw = st.raw := by
  unfold clUrgency
  dsimp only
  repeat' split
  all_goals rfl

theorem clSummary_raw (st : ClState) (i : Nat) (line : String) :
    (clSummary st i line).raw = st.raw := by
  unfold clSummary
  repeat' split
  all_goals rfl

theorem clCVEs_raw (st : ClState) (line : String) :
    (clCVEs st line).raw = st.raw := by
  unfold clCVEs
  repeat' split
  all_goals rfl

theorem clFooter_raw (st : ClState) (line : String) :
    (clFooter st line).raw = st.raw := by
  unfold clFooter
  repeat' split
  all_goals rfl

theorem clLine_raw (st : ClState) (i : Nat) (line : String) :
    (clLine st i line).raw = st.raw ++ (line ++ "\n") := by
  unfold clLine
  rw [show ({ clFooter (clCVEs (clSummary (clUrgency st line) i line) line) line with
      raw := (clFooter (clCVEs (clSummary (clUrgency st line) i line) line) line).raw ++
        (line ++ "\n") } : ClState).raw =
      (clFooter (clCVEs (clSummary (clUrgency st line) i line) line) line).raw ++
        (line ++ "\n") from rfl]
  rw [clFooter_raw, clCVEs_raw, clSummary_raw, clUrgency_raw]

theorem clScan_raw (stop : String) (lines : List String) :
    ∀ i st, (clScan stop lines i st).raw =
      st.raw ++ strJoinAll ((lines.takeWhile (fun l => !(strContains l stop))).map
        (fun l => l ++ "\n")) := by
  induction lines with
  | nil =>
    intro i st
    simp [clScan, strJoinAll]
  | cons line rest ih =>
    intro i st
    by_cases h : strContains line stop
    · simp [clScan, h, strJoinAll]
    · rw [show clScan stop (line :: rest) i st = clScan stop rest (i + 1) (clLine st i line) by
        simp [clScan, h]]
      rw [ih (i + 1) (clLine st i line), clLine_raw]
      have hp : (fun l => !(strContains l stop)) line = true := by simp [h]
      rw [List.takeWhile_cons, if_pos hp]
      simp [strJoinAll, String.append_assoc]

theorem head_dropWhile_false (p : String → Bool) (ls : List String) :
    ∀ l, (ls.dropWhile p).head? = some l → p l = false := by
  induction ls with
  | nil =>
    intro l h
    cases h
  | cons a t ih =>
    intro l h
    by_cases hp : p a
    · rw [List.dropWhile_cons_of_pos hp] at h
      exact ih l h
    · rw [List.dropWhile_cons_of_neg hp] at h
      cases h
      simpa using hp

/-- C5 counterexample: `raw` is not the newline-joined (separator
style) sequence of the pre-stop lines — the scan appends a newline
after every scanned line, so `raw` carries a trailing newline.  For the
two-line changelog "a\nb" with stop version "b", the single pre-stop
line is "a", the newline-join is "a", but `raw` is "a\n". -/
theorem changelog_raw_trailing_newline_counterexample :
    (GetChangelog "a\nb" "b").Raw = "a\n" ∧
    rawNewlineJoined "a\nb" "b" = "a" ∧
    ("a\n" : String) ≠ "a" := by
  refine ⟨by decide, by decide, by decide⟩

/-- C5 amended: the parser scans lines in order and stops at the first
line containing `stopVersion` as a substring; the stop line is not
included in `raw`, and `raw` is exactly the concatenation of every line
scanned before the stop, each followed by a newline (the newline-join
of the scanned lines plus a trailing newline when any line was
scanned). -/
theorem changelog_raw_stops_at_first_match (output stop : String) :
    (GetChangelog output stop).Raw =
      strJoinAll ((preStopLines output stop).map (fun l => l ++ "\n")) ∧
    splitLines output =
      preStopLines output stop ++
        (splitLines output).dropWhile (fun l => !(strContains l stop)) ∧
    (∀ l ∈ preStopLines output stop, strContains l stop = false) ∧
    ∀ l, ((splitLines output).dropWhile (fun l => !(strContains l stop))).head? = some l →
      strContains l stop = true := by
  refine ⟨?_, ?_, ?_, ?_⟩
  · have h := clScan_raw stop (splitLines output) 0 (ClState.mk "" "" "" "" [] "")
    unfold GetChangelog preStopLines
    simpa using h
  · exact (List.takeWhile_append_dropWhile _ _).symm
  · intro l hl
    have := List.mem_takeWhile_imp hl
    simpa using this
  · intro l hl
    have := head_dropWhile_false (fun l => !(strContains l stop)) (splitLines output) l hl
    simpa using this

/-- Closed witness for C5's amended statement: for
"first\nstop v1\ntail" with stop version "v1", `raw` is "first\n" and
the first dropped line contains the stop version. -/
theorem changelog_raw_stops_at_first_match_witness :
    (GetChangelog "first\nstop v1\ntail" "v1").Raw = "first\n" ∧
    (∀ l ∈ preStopLines "first\nstop v1\ntail" "v1", strContains l "v1" = false) ∧
    ∀ l, ((splitLines "first\nstop v1\ntail").dropWhile
        (fun l => !(strContains l "v1"))).head? = some l →
      strContains l "v1" = true := by
  have h := changelog_raw_stops_at_first_match "first\nstop v1\ntail" "v1"
  refine ⟨?_, h.2.2.1, h.2.2.2⟩
  rw [h.1]
  decide

/-- C6: `WriteSummaryIfMissing` is write-once per snapshot id: when the
summary file already exists the call returns its content unchanged and
performs no write, so a second call with the same id — whatever its
package list and timestamp — leaves the content identical to the state
after the first call and writes nothing. -/
theorem writeSummary_write_once (existing : Option String) (t1 t2 : String)
    (p1 p2 : List Info) :
    (∀ content, WriteSummaryIfMissing (some content) t2 p2 =
      SummaryWriteResult.mk (some content) false) ∧
    (WriteSummaryIfMissing (WriteSummaryIfMissing existing t1 p1).file t2 p2).file =
      (WriteSummaryIfMissing existing t1 p1).file ∧
    (WriteSummaryIfMissing (WriteSummaryIfMissing existing t1 p1).file t2 p2).wrote =
      false := by
  refine ⟨fun content => rfl, ?_, ?_⟩ <;> cases existing <;> rfl

theorem parseInstalledLine_isSome (l : String) :
    (parseInstalledLine l).isSome =
      (strHasPre l "ii" && decide (5 ≤ (fields l).length)) := by
  unfold parseInstalledLine
  by_cases h1 : strHasPre l "ii" <;> by_cases h2 : (fields l).length < 5 <;>
    simp [h1, h2, Nat.not_lt.mp, Nat.lt_iff_add_one_le]

theorem parseInstalledLine_malformed (l : String) (h : (fields l).length < 5) :
    parseInstalledLine l = none := by
  unfold parseInstalledLine
  by_cases h1 : strHasPre l "ii" <;> simp [h1, h]

theorem length_filterMap_parse (lines : List String) :
    (GetInstalledPackagesLines lines).length =
      (lines.filter (fun l => strHasPre l "ii" && decide (5 ≤ (fields l).length))).length := by
  induction lines with
  | nil => rfl
  | cons l rest ih =>
    unfold GetInstalledPackagesLines at *
    rw [List.filterMap_cons, List.filter_cons]
    cases hp : parseInstalledLine l with
    | none =>
      have hb : (strHasPre l "ii" && decide (5 ≤ (fields l).length)) = false := by
        rw [← parseInstalledLine_isSome, hp]
        rfl
      simp [hb, ih]
    | some p =>
      have hb : (strHasPre l "ii" && decide (5 ≤ (fields l).length)) = true := by
        rw [← parseInstalledLine_isSome, hp]
        rfl
      simp [hb, ih]

/-- C7 counterexample: the line "ii" carries the two-character
installed status marker but has fewer than five fields, so it is
dropped: the record count (0) differs from the count of
installed-marked lines (1). -/
theorem installed_count_counterexample :
    (GetInstalledPackages "ii").length = 0 ∧
    ((splitLines "ii").filter (fun l => strHasPre l "ii")).length = 1 := by
  exact ⟨by decide, by decide⟩

/-- C7 amended: the number of records returned equals the number of
lines that both carry the installed status marker ("ii" two-character
status prefix) and have at least the minimum five fields; a malformed
line (fewer than five fields) is dropped silently without affecting the
records produced for the other lines. -/
theorem installed_count_well_formed (lines : List String) :
    (GetInstalledPackagesLines lines).length =
      (lines.filter (fun l => strHasPre l "ii" && decide (5 ≤ (fields l).length))).length ∧
    ∀ xs ys l, (fields l).length < 5 →
      GetInstalledPackagesLines (xs ++ l :: ys) = GetInstalledPackagesLines (xs ++ ys) := by
  refine ⟨length_filterMap_parse lines, ?_⟩
  intro xs ys l h
  unfold GetInstalledPackagesLines
  simp [List.filterMap_append, List.filterMap_cons, parseInstalledLine_malformed l h]

/-- Closed witness for C7's amended statement on a three-line input
with one well-formed installed line, one malformed installed-marked
line and one non-installed line. -/
theorem installed_count_well_formed_witness :
    ((fields "ii").length < 5) ∧
    (GetInstalledPackagesLines ["ii  apt 2.4.9 amd64 cli pkg", "ii", "rc  old 1 a b"]).length =
      ((["ii  apt 2.4.9 amd64 cli pkg", "ii", "rc  old 1 a b"]).filter
        (fun l => strHasPre l "ii" && decide (5 ≤ (fields l).length))).length ∧
    GetInstalledPackagesLines ([] ++ "ii" :: ["ii  apt 2.4.9 amd64 cli pkg"]) =
      GetInstalledPackagesLines ([] ++ ["ii  apt 2.4.9 amd64 cli pkg"]) := by
  refine ⟨by decide, (installed_count_well_formed _).1, ?_⟩
  exact (installed_count_well_formed []).2 [] ["ii  apt 2.4.9 amd64 cli pkg"] "ii" (by decide)

theorem decStrElems_enc (xs : List String) :
    decStrElems (xs.map Json.str) = some xs := by
  induction xs with
  | nil => rfl
  | cons s rest ih => simp [decStrElems, ih]

theorem decChangelog_enc (c : ChangelogInfo) :
    decChangelog (encChangelog c) = some c := by
  obtain ⟨s, u, cv, a, d, r⟩ := c
  unfold encChangelog decChangelog
  by_cases h1 : cv.isEmpty <;> by_cases h2 : a == "" <;> by_cases h3 : d == "" <;>
    simp_all [jsonGet, decStr, decStrList, decStrElems_enc, List.isEmpty_iff]

theorem decOptChangelog_enc (c : ChangelogInfo) :
    decOptChangelog (some (encChangelog c)) = some (some c) := by
  have h : decOptChangelog (some (encChangelog c)) =
      (decChangelog (encChangelog c)).map some := rfl
  rw [h, decChangelog_enc]
  rfl

theorem decUpgrade_enc (u : UpgradeInfo) :
    decUpgrade (encUpgrade u) = some u := by
  obtain ⟨nv, hu, cl, rl, rr⟩ := u
  unfold encUpgrade decUpgrade
  cases cl with
  | none =>
    by_cases h1 : rl == "" <;> by_cases h2 : rr == "" <;>
      simp_all [jsonGet, decStr, decBool, decOptChangelog]
  | some c =>
    by_cases h1 : rl == "" <;> by_cases h2 : rr == "" <;>
      simp_all [jsonGet, decStr, decBool, decOptChangelog_enc]

theorem decOptUpgrade_enc (u : UpgradeInfo) :
    decOptUpgrade (some (encUpgrade u)) = some (some u) := by
  have h : decOptUpgrade (some (encUpgrade u)) =
      (decUpgrade (encUpgrade u)).map some := rfl
  rw [h, decUpgrade_enc]
  rfl

theorem decInfo_enc (p : Info) : decInfo (encInfo p) = some p := by
  obtain ⟨n, v, a, d, up⟩ := p
  unfold encInfo decInfo
  cases up with
  | none => simp [jsonGet, decStr, decOptUpgrade]
  | some u => simp [jsonGet, decStr, decOptUpgrade_enc]

theorem decInfoElems_enc (ps : List Info) :
    decInfoElems (ps.map encInfo) = some ps := by
  induction ps with
  | nil => rfl
  | cons p rest ih => simp [decInfoElems, decInfo_enc, ih]

/-- C8: serializing a package collection with `WriteSnapshot` and
deserializing the snapshot document with `ReadSnapshot` yields the
collection back, equal in every field: name, version, architecture,
description, and the full upgrade record with changelog, risk_level and
risk_reason. -/
theorem snapshot_round_trip (packages : List Info) :
    ReadSnapshot (WriteSnapshot packages) = some packages := by
  unfold WriteSnapshot ReadSnapshot
  exact decInfoElems_enc packages
